import Mathlib

/-!
Verification of the mcp-screencatch orchestration core.

The definitions below are a shallow embedding of the TypeScript sources
`src/enhanced-capture.ts`, `src/overlay.ts` and `src/capture.ts`:

* pure computations become Lean functions;
* subprocess exchanges become explicit parameters (the exit outcome, the
  result-file contents, the JSON parse function);
* filesystem effects become explicit state passing over a list of path/content
  pairs, plus an operation trace where a claim is about the effects themselves;
* JavaScript numbers appearing as counts, exit codes, timestamps and pixel
  coordinates are modelled with `Nat`/`Int`.

Theorems after the definitions settle the frozen claims about this code.
-/

/-- A rectangle in virtual-screen coordinates
(`interface Region` in `src/enhanced-capture.ts` and `src/overlay.ts`). -/
structure Region where
  x : Int
  y : Int
  width : Int
  height : Int
deriving DecidableEq

/-- The multi-region IPC payload (`interface CaptureResult` in
`src/enhanced-capture.ts`): selected regions, a count field, a cancelled flag
and an optional description.  `description = some s` models a present string
field; JavaScript truthiness of that field is `descTruthy` below. -/
structure CaptureResult where
  captures : List Region
  count : Nat
  cancelled : Bool
  description : Option String
deriving DecidableEq

/-- JavaScript truthiness of the optional description string:
`undefined`/missing and the empty string are falsy. -/
def descTruthy : Option String → Bool
  | none => false
  | some s => !(s == "")

/-! ### Region Capture Service (`captureRegions`, src/enhanced-capture.ts:93-114) -/

/-- One primitive call made by `captureRegions`: a full-screen grab
(`screenshot({ format: "png" })`) or a `sharp(...).extract(region)` crop. -/
inductive CaptureEvent where
  | screenshot
  | extract (region : Region)
deriving DecidableEq

/-- A cropped image buffer: it records which full-screen grab it was derived
from (an opaque token for the `fullScreenshot` buffer) and the rectangle it
was cropped to. -/
structure RawImage where
  source : Nat
  rect : Region
deriving DecidableEq

/-- The `for (const region of regions)` loop body of `captureRegions`: one
`extract` call and one pushed buffer per input region, in input order. -/
def cropLoop (fullScreenshot : Nat) : List Region → List CaptureEvent × List RawImage
  | [] => ([], [])
  | region :: rest =>
    let tail := cropLoop fullScreenshot rest
    (CaptureEvent.extract region :: tail.1,
      { source := fullScreenshot, rect := region } :: tail.2)

/-- `captureRegions` (src/enhanced-capture.ts:93-114): one full-screen grab,
then the crop loop over the single grabbed buffer.  Returns the trace of
primitive calls and the produced image buffers. -/
def captureRegions (fullScreenshot : Nat) (regions : List Region) :
    List CaptureEvent × List RawImage :=
  let tail := cropLoop fullScreenshot regions
  (CaptureEvent.screenshot :: tail.1, tail.2)

/-! ### IPC Channel exit handlers
(`enhancedCaptureScreen`, src/enhanced-capture.ts:61-86 and
`selectRegionInteractive`, src/overlay.ts:48-75) -/

/-- Failure of the IPC exchange that is surfaced to the caller (the handler
rejects the promise): the result file was present but did not parse. -/
inductive IpcError where
  | malformed (raw : String)
deriving DecidableEq

/-- The `child.on("exit", ...)` handler of `enhancedCaptureScreen`
(src/enhanced-capture.ts:61-86).  `file` is the contents of the expected
result file when it exists (`existsSync`/`readFile`), `parseJson` models
`JSON.parse` on it succeeding or throwing.  A missing file resolves `null`;
a parse failure rejects; a parsed result with `cancelled` set resolves
`null`; otherwise the result is resolved. -/
def enhancedCaptureOnExit (file : Option String)
    (parseJson : String → Option CaptureResult) :
    Except IpcError (Option CaptureResult) :=
  match file with
  | some data =>
    match parseJson data with
    | some result =>
      if result.cancelled then Except.ok none else Except.ok (some result)
    | none => Except.error (IpcError.malformed data)
  | none => Except.ok none

/-- The single-region IPC payload read by `selectRegionInteractive`
(src/overlay.ts): `{region: Region|null, cancelled: bool}`. -/
structure RegionResult where
  region : Option Region
  cancelled : Bool
deriving DecidableEq

/-- The `child.on("exit", ...)` handler of `selectRegionInteractive`
(src/overlay.ts:48-75), same shape as `enhancedCaptureOnExit` but resolving
the payload's `region` field. -/
def selectRegionOnExit (file : Option String)
    (parseJson : String → Option RegionResult) :
    Except IpcError (Option Region) :=
  match file with
  | some data =>
    match parseJson data with
    | some result =>
      if result.cancelled then Except.ok none else Except.ok result.region
    | none => Except.error (IpcError.malformed data)
  | none => Except.ok none

/-! ### Preview/confirm decision (`showPreviewAndConfirm`, src/enhanced-capture.ts:166-208) -/

/-- What the spawned preview subprocess did: failed to launch (the `error`
event) or exited with a code. -/
inductive SpawnOutcome where
  | launchError
  | exited (code : Int)
deriving DecidableEq

/-- `showPreviewAndConfirm` (src/enhanced-capture.ts:166-208) reduced to its
decision: `true` means the user asked to recapture.  Exit code 1 means
recapture; any other exit code means keep; a launch failure resolves `false`
(keep). -/
def showPreviewAndConfirm (outcome : SpawnOutcome) : Bool :=
  match outcome with
  | SpawnOutcome.launchError => false
  | SpawnOutcome.exited code => if code = 1 then true else false

/-- A concrete cancelled IPC payload, used to exercise the handlers. -/
def cancelledPayload : CaptureResult :=
  { captures := [], count := 0, cancelled := true, description := none }

/-! ### Theorems about the Region Capture Service and the IPC handlers -/

theorem cropLoop_eq (fullScreenshot : Nat) (regions : List Region) :
    cropLoop fullScreenshot regions =
      (regions.map CaptureEvent.extract,
        regions.map (fun region => { source := fullScreenshot, rect := region })) := by
  induction regions with
  | nil => rfl
  | cons region rest ih => simp [cropLoop, ih]

/-- **C4.** `captureRegions` grabs the full screen exactly once per call, and
returns exactly one cropped image per input region, in input order, each
derived from that single full-screen grab. -/
theorem captureRegions_single_grab_order_preserving
    (fullScreenshot : Nat) (regions : List Region) :
    (captureRegions fullScreenshot regions).1.count CaptureEvent.screenshot = 1 ∧
    (captureRegions fullScreenshot regions).2 =
      regions.map (fun region => { source := fullScreenshot, rect := region }) := by
  constructor
  · have h0 : List.count CaptureEvent.screenshot
        (List.map CaptureEvent.extract regions) = 0 := by
      rw [List.count_eq_zero]
      intro hmem
      rcases List.mem_map.mp hmem with ⟨region, _, heq⟩
      exact CaptureEvent.noConfusion heq
    simp only [captureRegions, cropLoop_eq, List.count_cons, h0]
    simp
  · simp [captureRegions, cropLoop_eq]

/-- **C5.** A missing result file is a silent cancellation (`null`, no error),
while a present-but-unparsable result file is surfaced as a `malformed` error,
distinct from the cancellation outcome — for both exit handlers. -/
theorem ipc_missing_file_cancels_parse_failure_surfaced :
    (∀ p, enhancedCaptureOnExit none p = Except.ok none) ∧
    (∀ p, selectRegionOnExit none p = Except.ok none) ∧
    (∀ data p, p data = none →
      enhancedCaptureOnExit (some data) p = Except.error (IpcError.malformed data) ∧
      enhancedCaptureOnExit (some data) p ≠ Except.ok none) ∧
    (∀ data p, p data = none →
      selectRegionOnExit (some data) p = Except.error (IpcError.malformed data) ∧
      selectRegionOnExit (some data) p ≠ Except.ok none) := by
  refine ⟨fun p => rfl, fun p => rfl, fun data p h => ?_, fun data p h => ?_⟩
  · simp [enhancedCaptureOnExit, h]
  · simp [selectRegionOnExit, h]

theorem ipc_missing_file_cancels_parse_failure_surfaced_witness :
    ((fun _ : String => (none : Option CaptureResult)) "garbage" = none) ∧
    enhancedCaptureOnExit (some "garbage") (fun _ => none) =
      Except.error (IpcError.malformed "garbage") :=
  ⟨rfl,
    (ipc_missing_file_cancels_parse_failure_surfaced.2.2.1 "garbage"
      (fun _ => none) rfl).1⟩

/-- **C6.** The preview/confirm decision is determined solely by the
subprocess exit code: exit code 1 yields "recapture requested", every other
exit code yields "keep", and a launch failure also yields "keep". -/
theorem showPreviewAndConfirm_exit_code_contract :
    showPreviewAndConfirm SpawnOutcome.launchError = false ∧
    (∀ code : Int, showPreviewAndConfirm (SpawnOutcome.exited code) = true ↔ code = 1) := by
  refine ⟨rfl, fun code => ?_⟩
  simp [showPreviewAndConfirm]

theorem showPreviewAndConfirm_exit_code_contract_witness :
    showPreviewAndConfirm (SpawnOutcome.exited 0) = false :=
  by
    have h := showPreviewAndConfirm_exit_code_contract.2 0
    simp at h
    exact h

/-- **C10.** Whenever an exit handler resolves a non-null result, that result
has `cancelled = false`; a result file whose payload carries `cancelled = true`
is collapsed to the same `null` outcome as a missing result file. -/
theorem ipc_cancelled_collapses_to_null :
    (∀ file p r, enhancedCaptureOnExit file p = Except.ok (some r) →
      r.cancelled = false) ∧
    (∀ data p r, p data = some r → r.cancelled = true →
      enhancedCaptureOnExit (some data) p = enhancedCaptureOnExit none p) := by
  constructor
  · intro file p r h
    match file with
    | none => simp [enhancedCaptureOnExit] at h
    | some data =>
      simp only [enhancedCaptureOnExit] at h
      match hp : p data with
      | none => rw [hp] at h; exact absurd h (by simp)
      | some result =>
        rw [hp] at h
        by_cases hc : result.cancelled
        · simp [hc] at h
        · simp [hc] at h
          cases h
          exact Bool.not_eq_true _ |>.mp hc
  · intro data p r hp hc
    simp [enhancedCaptureOnExit, hp, hc]

theorem ipc_cancelled_collapses_to_null_witness :
    ((fun _ : String => some cancelledPayload) "x" = some cancelledPayload) ∧
    cancelledPayload.cancelled = true ∧
    enhancedCaptureOnExit (some "x") (fun _ => some cancelledPayload) =
      enhancedCaptureOnExit none (fun _ => some cancelledPayload) :=
  ⟨rfl, rfl, ipc_cancelled_collapses_to_null.2 "x" _ _ rfl rfl⟩

/-! ### Listing Service (`listCaptures`, src/capture.ts:103-157) -/

/-- One entry of the output directory as seen by `readdir`/`stat`: a file
name, its modification time (`stats.mtime`, modelled as a `Nat` instant) and
its size. -/
structure DirEntry where
  name : String
  mtime : Nat
  size : Nat
deriving DecidableEq

/-- One element of the `captures` array built by `listCaptures`. -/
structure CaptureInfo where
  filename : String
  filepath : String
  timestamp : Nat
  size : Nat
deriving DecidableEq

/-- The record returned by `listCaptures`. -/
structure ListCapturesResult where
  captures : List CaptureInfo
  total : Nat
deriving DecidableEq

/-- JavaScript `String.prototype.startsWith`, on the character list. -/
def strStartsWith (s pre : String) : Bool := pre.data.isPrefixOf s.data

/-- JavaScript `String.prototype.endsWith`, on the character list. -/
def strEndsWith (s suf : String) : Bool := suf.data.isSuffixOf s.data

/-- The filter of `listCaptures`:
`f.startsWith("capture_") && f.endsWith(".png")`. -/
def isCaptureFilename (name : String) : Bool :=
  strStartsWith name "capture_" && strEndsWith name ".png"

/-- `join(dir, name)` for the flat output directory. -/
def pathJoin (dir name : String) : String := dir ++ "/" ++ name

/-- `listCaptures` (src/capture.ts:103-157).  `dirListing` is the outcome of
reading the directory: `none` models any thrown filesystem error (the `catch`
branch), `some files` the `readdir` results with their `stat` data.  The
matching files are sorted descending by modification time (the comparator
`b.timestamp.getTime() - a.timestamp.getTime()`, a stable sort in V8, modelled
by the stable `mergeSort`), truncated to `limit` by `slice(0, limit)`, while
`total` reports the untruncated match count. -/
def listCaptures (dirListing : Option (List DirEntry)) (outputDir : String)
    (limit : Nat) : ListCapturesResult :=
  match dirListing with
  | none => { captures := [], total := 0 }
  | some files =>
    let captureFiles := files.filter (fun f => isCaptureFilename f.name)
    let capturesWithStats := captureFiles.map (fun f =>
      ({ filename := f.name, filepath := pathJoin outputDir f.name,
         timestamp := f.mtime, size := f.size } : CaptureInfo))
    let sorted := capturesWithStats.mergeSort
      (fun a b => decide (b.timestamp ≤ a.timestamp))
    { captures := sorted.take limit, total := capturesWithStats.length }

/-- **C7.** `listCaptures` returns the matching capture files sorted
descending by modification time, returns at most `limit` entries, reports the
true total count of matches independently of truncation (and, when no
truncation happens, the returned entries are exactly the matches up to
order), and a directory-read failure yields an empty list with `total = 0`. -/
theorem listCaptures_sorted_limited_total
    (files : List DirEntry) (outputDir : String) (limit : Nat) :
    listCaptures none outputDir limit = { captures := [], total := 0 } ∧
    (listCaptures (some files) outputDir limit).captures.length ≤ limit ∧
    (listCaptures (some files) outputDir limit).total =
      (files.filter (fun f => isCaptureFilename f.name)).length ∧
    List.Pairwise (fun a b => b.timestamp ≤ a.timestamp)
      (listCaptures (some files) outputDir limit).captures ∧
    ((files.filter (fun f => isCaptureFilename f.name)).length ≤ limit →
      (listCaptures (some files) outputDir limit).captures.Perm
        ((files.filter (fun f => isCaptureFilename f.name)).map (fun f =>
          ({ filename := f.name, filepath := pathJoin outputDir f.name,
             timestamp := f.mtime, size := f.size } : CaptureInfo)))) := by
  refine ⟨rfl, ?_, ?_, ?_, ?_⟩
  · simp only [listCaptures, List.length_take]
    exact min_le_left _ _
  · simp [listCaptures]
  · simp only [listCaptures]
    have hs : List.Pairwise
        (fun a b : CaptureInfo => (decide (b.timestamp ≤ a.timestamp)) = true)
        (((files.filter (fun f => isCaptureFilename f.name)).map (fun f =>
            ({ filename := f.name, filepath := pathJoin outputDir f.name,
               timestamp := f.mtime, size := f.size } : CaptureInfo))).mergeSort
          (fun a b => decide (b.timestamp ≤ a.timestamp))) := by
      apply List.sorted_mergeSort
      · intro a b c hab hbc
        simp only [decide_eq_true_eq] at hab hbc ⊢
        exact le_trans hbc hab
      · intro a b
        rcases Nat.le_total b.timestamp a.timestamp with h | h
        · simp [h]
        · simp [h]
    have hs' := hs.imp (fun {a b} h => of_decide_eq_true h)
    exact hs'.sublist (List.take_sublist _ _)
  · intro hlen
    simp only [listCaptures]
    rw [List.take_of_length_le]
    · exact List.mergeSort_perm _ _
    · rw [List.length_mergeSort, List.length_map]
      exact hlen

theorem listCaptures_sorted_limited_total_witness :
    (([({ name := "capture_a.png", mtime := 5, size := 1 } : DirEntry),
       { name := "capture_b.png", mtime := 9, size := 2 },
       { name := "notes.txt", mtime := 3, size := 3 }].filter
        (fun f => isCaptureFilename f.name)).length ≤ 10) ∧
    (listCaptures
      (some [{ name := "capture_a.png", mtime := 5, size := 1 },
             { name := "capture_b.png", mtime := 9, size := 2 },
             { name := "notes.txt", mtime := 3, size := 3 }]) "/out" 10).total =
      ([({ name := "capture_a.png", mtime := 5, size := 1 } : DirEntry),
        { name := "capture_b.png", mtime := 9, size := 2 },
        { name := "notes.txt", mtime := 3, size := 3 }].filter
         (fun f => isCaptureFilename f.name)).length := by
  constructor
  · decide
  · exact (listCaptures_sorted_limited_total
      [{ name := "capture_a.png", mtime := 5, size := 1 },
       { name := "capture_b.png", mtime := 9, size := 2 },
       { name := "notes.txt", mtime := 3, size := 3 }] "/out" 10).2.2.1

/-! ### Filesystem effects of the Listing Service (C8) -/

/-- A filesystem operation performed by `listCaptures` and its helper
`ensureOutputDirectory` (src/capture.ts:31-35). -/
inductive FsOp where
  | mkdirRecursive (dir : String)
  | readdir (dir : String)
  | statFile (path : String)
deriving DecidableEq

/-- `ensureOutputDirectory` (src/capture.ts:31-35): when `existsSync` is
false it calls `mkdir(directory, { recursive: true })`. -/
def ensureOutputDirectory (dirExists : Bool) (directory : String) : List FsOp :=
  if dirExists then [] else [FsOp.mkdirRecursive directory]

/-- The trace of filesystem operations performed by a successful
`listCaptures` call (src/capture.ts:115-138): first `ensureOutputDirectory`,
then `readdir`, then one `stat` per matching file. -/
def listCapturesOps (dirExists : Bool) (outputDir : String)
    (files : List DirEntry) : List FsOp :=
  ensureOutputDirectory dirExists outputDir ++
    [FsOp.readdir outputDir] ++
    (files.filter (fun f => isCaptureFilename f.name)).map
      (fun f => FsOp.statFile (pathJoin outputDir f.name))

/-- Whether a filesystem operation mutates the filesystem. -/
def FsOp.isWrite : FsOp → Bool
  | FsOp.mkdirRecursive _ => true
  | FsOp.readdir _ => false
  | FsOp.statFile _ => false

theorem listCapturesOps_exists_eq (outputDir : String) (files : List DirEntry) :
    listCapturesOps true outputDir files =
      FsOp.readdir outputDir ::
        (files.filter (fun f => isCaptureFilename f.name)).map
          (fun f => FsOp.statFile (pathJoin outputDir f.name)) := rfl

theorem listCapturesOps_missing_eq (outputDir : String) (files : List DirEntry) :
    listCapturesOps false outputDir files =
      FsOp.mkdirRecursive outputDir :: FsOp.readdir outputDir ::
        (files.filter (fun f => isCaptureFilename f.name)).map
          (fun f => FsOp.statFile (pathJoin outputDir f.name)) := rfl

/-- **C8, counterexample.** The listing operation is not read-only: when the
output directory does not exist, `listCaptures` (via `ensureOutputDirectory`)
creates it with a recursive `mkdir`, changing the directory's existence. -/
theorem listCaptures_creates_missing_directory :
    FsOp.mkdirRecursive "/captures" ∈ listCapturesOps false "/captures" [] ∧
    (FsOp.mkdirRecursive "/captures").isWrite = true := by
  constructor
  · rw [listCapturesOps_missing_eq]
    exact List.mem_cons_self _ _
  · rfl

/-- **C8, amended.** When the output directory already exists, `listCaptures`
performs no filesystem writes at all; when it does not exist, the only write
is the creation of that directory itself (no file contents are touched). -/
theorem listCaptures_read_only_when_directory_exists
    (outputDir : String) (files : List DirEntry) :
    (∀ op ∈ listCapturesOps true outputDir files, op.isWrite = false) ∧
    (∀ op ∈ listCapturesOps false outputDir files,
      op.isWrite = true → op = FsOp.mkdirRecursive outputDir) := by
  constructor
  · intro op hop
    rw [listCapturesOps_exists_eq] at hop
    rcases List.mem_cons.mp hop with h | h
    · rw [h]; rfl
    · rcases List.mem_map.mp h with ⟨f, _, hf⟩
      rw [← hf]; rfl
  · intro op hop hw
    rw [listCapturesOps_missing_eq] at hop
    rcases List.mem_cons.mp hop with h | h
    · exact h
    · rcases List.mem_cons.mp h with h | h
      · rw [h] at hw; exact absurd hw (by simp [FsOp.isWrite])
      · rcases List.mem_map.mp h with ⟨f, _, hf⟩
        rw [← hf] at hw; exact absurd hw (by simp [FsOp.isWrite])

theorem listCaptures_read_only_when_directory_exists_witness :
    FsOp.readdir "/out" ∈ listCapturesOps true "/out" [] ∧
    (FsOp.readdir "/out").isWrite = false :=
  ⟨by rw [listCapturesOps_exists_eq]; exact List.mem_cons_self _ _,
    (listCaptures_read_only_when_directory_exists "/out" []).1
      (FsOp.readdir "/out")
      (by rw [listCapturesOps_exists_eq]; exact List.mem_cons_self _ _)⟩

/-! ### Temporary IPC file naming
(`getTempOutputFile`, src/enhanced-capture.ts:30-34 and src/overlay.ts:22-26) -/

/-- `getTempOutputFile` of src/enhanced-capture.ts:
`join(__dirname, "capture-result-" + Date.now() + "-" + random + ".json")`,
with the millisecond clock reading and the random draw
(`Math.floor(Math.random() * 10000)`) as explicit inputs. -/
def getTempOutputFile (dirname : String) (timestampMs randomDraw : Nat) : String :=
  pathJoin dirname
    ("capture-result-" ++ Nat.repr timestampMs ++ "-" ++ Nat.repr randomDraw ++ ".json")

/-- `getTempOutputFile` of src/overlay.ts, identical except for the
`region-output-` stem. -/
def getTempOutputFileOverlay (dirname : String) (timestampMs randomDraw : Nat) : String :=
  pathJoin dirname
    ("region-output-" ++ Nat.repr timestampMs ++ "-" ++ Nat.repr randomDraw ++ ".json")

/-- Decimal digit characters of a natural number, most significant first:
the specification of what `Nat.repr` prints. -/
def natChars (n : Nat) : List Char :=
  if n < 10 then [Nat.digitChar n]
  else natChars (n / 10) ++ [Nat.digitChar (n % 10)]
termination_by n
decreasing_by
  exact Nat.div_lt_self (by omega) (by omega)

theorem natChars_of_lt {n : Nat} (h : n < 10) : natChars n = [Nat.digitChar n] := by
  rw [natChars, if_pos h]

theorem natChars_of_ge {n : Nat} (h : ¬ n < 10) :
    natChars n = natChars (n / 10) ++ [Nat.digitChar (n % 10)] := by
  rw [natChars, if_neg h]

theorem toDigitsCore_eq_natChars :
    ∀ (fuel n : Nat) (acc : List Char), n < fuel →
      Nat.toDigitsCore 10 fuel n acc = natChars n ++ acc := by
  intro fuel
  induction fuel with
  | zero => intro n acc h; exact absurd h (Nat.not_lt_zero n)
  | succ fuel ih =>
    intro n acc h
    show (if n / 10 = 0 then Nat.digitChar (n % 10) :: acc
      else Nat.toDigitsCore 10 fuel (n / 10) (Nat.digitChar (n % 10) :: acc)) =
      natChars n ++ acc
    by_cases hz : n / 10 = 0
    · have hn : n < 10 := by omega
      rw [if_pos hz, natChars_of_lt hn, Nat.mod_eq_of_lt hn]
      rfl
    · have hn : ¬ n < 10 := by
        intro hlt
        exact hz (Nat.div_eq_of_lt hlt)
      have hfuel : n / 10 < fuel := by
        have hdiv : n / 10 < n := Nat.div_lt_self (by omega) (by omega)
        omega
      rw [if_neg hz, ih (n / 10) _ hfuel, natChars_of_ge hn, List.append_assoc]
      rfl

theorem repr_data_eq_natChars (n : Nat) : (Nat.repr n).data = natChars n := by
  show (Nat.toDigitsCore 10 (n + 1) n []).asString.data = natChars n
  rw [toDigitsCore_eq_natChars (n + 1) n [] (Nat.lt_succ_self n), List.append_nil]
  rfl

theorem digitChar_ne_dash {k : Nat} (h : k < 10) : Nat.digitChar k ≠ '-' := by
  interval_cases k <;> decide

theorem natChars_no_dash : ∀ n : Nat, '-' ∉ natChars n := by
  intro n
  induction n using Nat.strong_induction_on with
  | _ n ih =>
    by_cases h : n < 10
    · rw [natChars_of_lt h]
      intro hmem
      rcases List.mem_singleton.mp hmem with hmem
      exact digitChar_ne_dash h hmem.symm
    · rw [natChars_of_ge h]
      intro hmem
      rcases List.mem_append.mp hmem with hmem | hmem
      · exact ih (n / 10) (Nat.div_lt_self (by omega) (by omega)) hmem
      · rcases List.mem_singleton.mp hmem with hmem
        exact digitChar_ne_dash (Nat.mod_lt n (by omega)) hmem.symm

theorem natChars_ne_nil (n : Nat) : natChars n ≠ [] := by
  by_cases h : n < 10
  · rw [natChars_of_lt h]; simp
  · rw [natChars_of_ge h]; simp

theorem digitChar_inj_lt {m n : Nat} (hm : m < 10) (hn : n < 10)
    (h : Nat.digitChar m = Nat.digitChar n) : m = n := by
  interval_cases m <;> interval_cases n <;> simp_all <;> exact absurd h (by decide)

theorem natChars_injective : ∀ m n : Nat, natChars m = natChars n → m = n := by
  intro m
  induction m using Nat.strong_induction_on with
  | _ m ih =>
    intro n h
    by_cases hm : m < 10 <;> by_cases hn : n < 10
    · rw [natChars_of_lt hm, natChars_of_lt hn] at h
      exact digitChar_inj_lt hm hn (List.singleton_injective h)
    · exfalso
      rw [natChars_of_lt hm, natChars_of_ge hn] at h
      have hlen := congrArg List.length h
      simp only [List.length_append, List.length_cons, List.length_nil] at hlen
      have hpos := List.length_pos.mpr (natChars_ne_nil (n / 10))
      omega
    · exfalso
      rw [natChars_of_ge hm, natChars_of_lt hn] at h
      have hlen := congrArg List.length h
      simp only [List.length_append, List.length_cons, List.length_nil] at hlen
      have hpos := List.length_pos.mpr (natChars_ne_nil (m / 10))
      omega
    · rw [natChars_of_ge hm, natChars_of_ge hn] at h
      rcases List.append_inj' h (by simp) with ⟨hdiv, hmod⟩
      have h1 : m / 10 = n / 10 :=
        ih (m / 10) (Nat.div_lt_self (by omega) (by omega)) (n / 10) hdiv
      have h2 : m % 10 = n % 10 :=
        digitChar_inj_lt (Nat.mod_lt m (by omega)) (Nat.mod_lt n (by omega))
          (List.singleton_injective hmod)
      have hm' := Nat.div_add_mod m 10
      have hn' := Nat.div_add_mod n 10
      omega

theorem nat_repr_injective {m n : Nat} (h : Nat.repr m = Nat.repr n) : m = n := by
  apply natChars_injective
  rw [← repr_data_eq_natChars, ← repr_data_eq_natChars, h]

theorem append_dash_inj :
    ∀ (a : List Char) {b : List Char} (c : List Char) {d : List Char},
      '-' ∉ a → '-' ∉ c → a ++ '-' :: b = c ++ '-' :: d → a = c ∧ b = d := by
  intro a
  induction a with
  | nil =>
    intro b c d _ hc h
    match c with
    | [] => exact ⟨rfl, by simpa using h⟩
    | x :: c' =>
      simp only [List.nil_append, List.cons_append, List.cons.injEq] at h
      exact absurd (List.mem_cons_self x c') (h.1 ▸ hc)
  | cons x a' ih =>
    intro b c d ha hc h
    match c with
    | [] =>
      simp only [List.cons_append, List.nil_append, List.cons.injEq] at h
      exact absurd (List.mem_cons_self x a') (h.1 ▸ ha)
    | y :: c' =>
      simp only [List.cons_append, List.cons.injEq] at h
      have ha' : '-' ∉ a' := fun hm => ha (List.mem_cons_of_mem x hm)
      have hc' : '-' ∉ c' := fun hm => hc (List.mem_cons_of_mem y hm)
      rcases ih c' ha' hc' h.2 with ⟨h1, h2⟩
      exact ⟨by rw [h.1, h1], h2⟩

theorem tempPath_inj (dirname stem : String) {t1 r1 t2 r2 : Nat}
    (h : pathJoin dirname (stem ++ Nat.repr t1 ++ "-" ++ Nat.repr r1 ++ ".json") =
      pathJoin dirname (stem ++ Nat.repr t2 ++ "-" ++ Nat.repr r2 ++ ".json")) :
    t1 = t2 ∧ r1 = r2 := by
  have hd := congrArg String.data h
  simp only [pathJoin, String.data_append, List.append_assoc] at hd
  have hd1 := List.append_cancel_left hd
  have hd2 := List.append_cancel_left hd1
  have hd3 := List.append_cancel_left hd2
  simp only [repr_data_eq_natChars, List.singleton_append] at hd3
  rcases append_dash_inj _ _ (natChars_no_dash t1) (natChars_no_dash t2) hd3 with ⟨h1, h2⟩
  exact ⟨natChars_injective _ _ h1,
    natChars_injective _ _ (List.append_cancel_right h2)⟩

/-- **C9, counterexample.** Temporary result-file paths are not globally
unique per call: the path depends only on the millisecond clock reading and
the random draw, so two distinct invocations that happen to share both (same
`Date.now()` millisecond, same `Math.floor(Math.random() * 10000)` value)
receive the identical path. -/
theorem getTempOutputFile_collision :
    ¬ (∀ (ts rnd : Nat → Nat) (i j : Nat), i ≠ j →
        getTempOutputFile "/app/dist" (ts i) (rnd i) ≠
          getTempOutputFile "/app/dist" (ts j) (rnd j)) := by
  intro h
  exact h (fun _ => 1730000000000) (fun _ => 1234) 0 1 (by omega) rfl

/-- **C9, amended.** Temporary result-file paths of two IPC channel
invocations are distinct whenever the invocations differ in their millisecond
timestamp or in their random suffix — for the `capture-result-` generator of
src/enhanced-capture.ts and the `region-output-` generator of src/overlay.ts
alike; uniqueness is only probabilistic, not guaranteed, when both inputs
coincide. -/
theorem getTempOutputFile_distinct_on_distinct_inputs
    (dirname : String) (t1 r1 t2 r2 : Nat) (h : t1 ≠ t2 ∨ r1 ≠ r2) :
    getTempOutputFile dirname t1 r1 ≠ getTempOutputFile dirname t2 r2 ∧
    getTempOutputFileOverlay dirname t1 r1 ≠ getTempOutputFileOverlay dirname t2 r2 := by
  constructor
  · intro heq
    rcases tempPath_inj dirname "capture-result-" heq with ⟨h1, h2⟩
    rcases h with h | h
    · exact h h1
    · exact h h2
  · intro heq
    rcases tempPath_inj dirname "region-output-" heq with ⟨h1, h2⟩
    rcases h with h | h
    · exact h h1
    · exact h h2

theorem getTempOutputFile_distinct_on_distinct_inputs_witness :
    ((1730000000000 : Nat) ≠ 1730000000000 ∨ (1234 : Nat) ≠ 1235) ∧
    getTempOutputFile "/app/dist" 1730000000000 1234 ≠
      getTempOutputFile "/app/dist" 1730000000000 1235 :=
  ⟨Or.inr (by omega),
    (getTempOutputFile_distinct_on_distinct_inputs "/app/dist" 1730000000000 1234
      1730000000000 1235 (Or.inr (by omega))).1⟩

/-! ### Session workflow (`enhancedCaptureWorkflow`, src/enhanced-capture.ts:213-343)

The workflow's effects are modelled explicitly: the output directory is a
list of path/content pairs threaded through the loop, the IPC exchanges and
preview subprocesses are inputs (one `IterInput` per loop iteration), and
the `withDescription` flag passed to each `enhancedCaptureScreen` call is
logged so that description re-prompting is observable. -/

instance : Inhabited Region := ⟨⟨0, 0, 0, 0⟩⟩

/-- How the image file at the session's `filepath` was produced (step 4 of
the workflow): a single buffer written directly by `writeFile`, or the
output of the Merge Engine (`mergeImages`) with its method string. -/
inductive ImageSrc where
  | single (region : Region)
  | merged (method : String) (regions : List Region)
deriving DecidableEq

/-- The metadata sidecar document written in step 5 of the workflow. -/
structure Metadata where
  description : String
  timestamp : String
  captures : Nat
  merged : Bool
  filepath : String
  regions : List Region
  recaptureIteration : Nat
deriving DecidableEq

/-- Contents of a file in the output directory. -/
inductive FileContent where
  | image (src : ImageSrc)
  | meta (m : Metadata)
deriving DecidableEq

/-- `writeFile`: replaces any existing file at `path` and stores `content`. -/
def writeFs (fs : List (String × FileContent)) (path : String)
    (content : FileContent) : List (String × FileContent) :=
  fs.filter (fun e => e.1 != path) ++ [(path, content)]

/-- `unlink`: removes the file at `path` (no-op when absent, matching the
workflow's ignored deletion errors). -/
def unlinkFs (fs : List (String × FileContent)) (path : String) :
    List (String × FileContent) :=
  fs.filter (fun e => e.1 != path)

/-- JavaScript `String.prototype.replace` with a literal string pattern:
replaces the first occurrence only. -/
def replaceFirstChars (pat rep : List Char) : List Char → List Char
  | [] => []
  | c :: rest =>
    if pat.isPrefixOf (c :: rest) then rep ++ (c :: rest).drop pat.length
    else c :: replaceFirstChars pat rep rest

/-- `filepath.replace(".png", ".json")` and friends, on strings. -/
def replaceFirstStr (s pat rep : String) : String :=
  List.asString (replaceFirstChars pat.data rep.data s.data)

/-- The modelled inputs consumed by one iteration of the workflow loop:
the resolution of the `enhancedCaptureScreen` exchange (`none` for a `null`
resolution), the timestamp-derived filename stem and ISO timestamp for this
iteration, and the preview subprocess outcome (consulted only when the
preview is enabled). -/
structure IterInput where
  ipc : Option CaptureResult
  stem : String
  iso : String
  preview : SpawnOutcome
deriving DecidableEq

/-- The object returned by `enhancedCaptureWorkflow`. -/
structure WorkflowReturn where
  success : Bool
  filepath : Option String
  description : Option String
  captureCount : Option Nat
  recaptured : Option Nat
deriving DecidableEq

/-- Result of running the workflow model: the returned object (`none` when
the modelled iteration inputs were exhausted before the loop returned), the
final state of the output directory, and the logged `withDescription` flag
of each `enhancedCaptureScreen` invocation, in order. -/
structure RunResult where
  ret : Option WorkflowReturn
  fs : List (String × FileContent)
  exchanges : List Bool
deriving DecidableEq

/-- The `capture_<stem>.png` filename of step 3 of the workflow. -/
def captureFilename (stem : String) : String := "capture_" ++ stem ++ ".png"

/-- `savedDescription` update of the workflow
(`if (result.description && !savedDescription) savedDescription = result.description`). -/
def updDesc (saved : Option String) (r : CaptureResult) : Option String :=
  if descTruthy r.description && saved.isNone then r.description else saved

/-- Image written in step 4: `imageBuffers.length === 1` saves the single
buffer directly, otherwise the Merge Engine is invoked with method `auto`
(`captureRegions` returns one buffer per region, see
`captureRegions_single_grab_order_preserving`, so the buffer count equals
`result.captures.length`). -/
def imageSrcOf (r : CaptureResult) : ImageSrc :=
  if r.captures.length = 1 then ImageSrc.single r.captures.headI
  else ImageSrc.merged "auto" r.captures

/-- Everything produced by steps 3-5 of the workflow (filename generation,
image save, metadata sidecar). -/
structure SavedArtifact where
  filepath : String
  metadataPath : String
  image : ImageSrc
  metadata : Metadata
  fs : List (String × FileContent)
deriving DecidableEq

/-- Steps 3-5 of `enhancedCaptureWorkflow` (src/enhanced-capture.ts:260-291):
generate `filepath` from the iteration's timestamp stem, write the image
(single buffer as-is, otherwise Merge Engine with method `auto`), derive the
sidecar path with `filepath.replace(".png", ".json")` and write the metadata
document. -/
def saveArtifact (outputDir : String) (inp : IterInput) (r : CaptureResult)
    (saved : Option String) (recaptureCount : Nat)
    (fs : List (String × FileContent)) : SavedArtifact :=
  let filepath := pathJoin outputDir (captureFilename inp.stem)
  let image := imageSrcOf r
  let fs1 := writeFs fs filepath (FileContent.image image)
  let metadataPath := replaceFirstStr filepath ".png" ".json"
  let metadata : Metadata :=
    { description := saved.getD "", timestamp := inp.iso, captures := r.count,
      merged := decide (r.count > 1), filepath := filepath, regions := r.captures,
      recaptureIteration := recaptureCount }
  let fs2 := writeFs fs1 metadataPath (FileContent.meta metadata)
  { filepath := filepath, metadataPath := metadataPath, image := image,
    metadata := metadata, fs := fs2 }

/-- Return value of the workflow on a cancelled exchange
(`!result || result.cancelled`). -/
def cancelledReturn : WorkflowReturn :=
  { success := false, filepath := none, description := none,
    captureCount := none, recaptured := none }

/-- Return value of the workflow on a zero-count result
(`result.count === 0`). -/
def noRegionsReturn : WorkflowReturn :=
  { success := false, filepath := none, description := none,
    captureCount := none, recaptured := none }

/-- Return value of the workflow when the user keeps the capture. -/
def successReturn (fp : String) (saved : Option String) (count c : Nat) :
    WorkflowReturn :=
  { success := true, filepath := some fp, description := saved,
    captureCount := some count, recaptured := some c }

/-- The `while (true)` loop of `enhancedCaptureWorkflow`
(src/enhanced-capture.ts:229-333), one `IterInput` per iteration, carrying
`recaptureCount`, `savedDescription`, the output directory state and the
exchange log. -/
def runAux (outputDir : String) (withDescription showPreview : Bool) :
    List IterInput → Nat → Option String → List (String × FileContent) →
      List Bool → RunResult
  | [], _, _, fs, log => { ret := none, fs := fs, exchanges := log }
  | inp :: rest, recaptureCount, savedDescription, fs, log =>
    let log' := log ++ [withDescription && savedDescription.isNone]
    match inp.ipc with
    | none => { ret := some cancelledReturn, fs := fs, exchanges := log' }
    | some result =>
      if result.cancelled then
        { ret := some cancelledReturn, fs := fs, exchanges := log' }
      else if result.count = 0 then
        { ret := some noRegionsReturn, fs := fs, exchanges := log' }
      else
        let saved' := updDesc savedDescription result
        let sa := saveArtifact outputDir inp result saved' recaptureCount fs
        if showPreview && showPreviewAndConfirm inp.preview then
          runAux outputDir withDescription showPreview rest (recaptureCount + 1)
            saved' (unlinkFs (unlinkFs sa.fs sa.filepath) sa.metadataPath) log'
        else
          { ret := some (successReturn sa.filepath saved' result.count recaptureCount),
            fs := sa.fs, exchanges := log' }

/-- `enhancedCaptureWorkflow(outputDir, withDescription, showPreview)`:
the loop starts with `recaptureCount = 0`, no saved description, and (for
this session's view) an empty output directory and exchange log. -/
def enhancedCaptureWorkflow (outputDir : String)
    (withDescription showPreview : Bool) (script : List IterInput) : RunResult :=
  runAux outputDir withDescription showPreview script 0 none [] []

/-! ### Filesystem algebra for the recapture loop -/

theorem unlinkFs_writeFs_same (fs : List (String × FileContent)) (p : String)
    (c : FileContent) : unlinkFs (writeFs fs p c) p = unlinkFs fs p := by
  simp [unlinkFs, writeFs, List.filter_append, List.filter_filter]

theorem unlinkFs_writeFs_ne (fs : List (String × FileContent)) {p q : String}
    (c : FileContent) (h : p ≠ q) :
    unlinkFs (writeFs fs p c) q = writeFs (unlinkFs fs q) p c := by
  have hpq : ((p != q) : Bool) = true := bne_iff_ne.mpr h
  simp [unlinkFs, writeFs, List.filter_append, List.filter_filter, hpq,
    Bool.and_comm]

theorem cleanup_after_save (fs : List (String × FileContent)) (p q : String)
    (i m : FileContent) :
    unlinkFs (unlinkFs (writeFs (writeFs fs p i) q m) p) q =
      unlinkFs (unlinkFs fs p) q := by
  by_cases h : q = p
  · subst h
    rw [unlinkFs_writeFs_same, unlinkFs_writeFs_same]
  · rw [unlinkFs_writeFs_ne _ m h, unlinkFs_writeFs_same, unlinkFs_writeFs_same]

theorem writeFs_pair_of_empty {p q : String} (i m : FileContent) (h : p ≠ q) :
    writeFs (writeFs [] p i) q m = [(p, i), (q, m)] := by
  have hpq : ((p != q) : Bool) = true := bne_iff_ne.mpr h
  simp [writeFs, List.filter, hpq]

/-! ### `replace(".png", ".json")` changes the path -/

theorem replaceFirstChars_length (pat rep : List Char) :
    ∀ (pre l suf : List Char), pat ≠ [] → l = pre ++ pat ++ suf →
      (replaceFirstChars pat rep l).length = l.length - pat.length + rep.length := by
  intro pre
  induction pre with
  | nil =>
    intro l suf hpat hl
    subst hl
    match pat, hpat with
    | pc :: pt, _ =>
      have hpre : (pc :: pt).isPrefixOf (([] : List Char) ++ (pc :: pt) ++ suf) = true := by
        apply List.isPrefixOf_iff_prefix.mpr
        exact ⟨suf, by simp⟩
      simp only [List.nil_append, List.cons_append] at hpre ⊢
      simp only [replaceFirstChars, List.cons_append] at hpre ⊢
      rw [if_pos hpre]
      simp only [List.length_append, List.length_drop, List.length_cons]
      omega
  | cons x pre' ih =>
    intro l suf hpat hl
    subst hl
    have hih := ih (pre' ++ pat ++ suf) suf hpat rfl
    have hple : pat.length ≤ (pre' ++ pat ++ suf).length := by
      simp only [List.length_append]
      omega
    simp only [List.cons_append, replaceFirstChars, List.append_eq]
    by_cases hp : pat.isPrefixOf (x :: (pre' ++ pat ++ suf)) = true
    · rw [if_pos hp]
      have hle : pat.length ≤ (x :: (pre' ++ pat ++ suf)).length :=
        (List.isPrefixOf_iff_prefix.mp hp).length_le
      simp only [List.length_append, List.length_drop, List.length_cons] at hle hple ⊢
      omega
    · rw [if_neg hp]
      simp only [List.length_cons, List.length_append] at hih hple ⊢
      rw [hih]
      omega

theorem replaceFirst_png_json_length (s : String) (pre : List Char)
    (h : s.data = pre ++ (".png".data) ++ []) :
    (replaceFirstStr s ".png" ".json").data.length = s.data.length + 1 := by
  have hr := replaceFirstChars_length (".png".data) (".json".data) pre s.data []
    (by decide) h
  have h4 : (".png".data).length = 4 := rfl
  have h5 : (".json".data).length = 5 := rfl
  have hge : 4 ≤ s.data.length := by
    rw [h]
    simp only [List.append_nil, List.length_append, h4]
    omega
  have hdata : (replaceFirstStr s ".png" ".json").data =
      replaceFirstChars (".png".data) (".json".data) s.data := rfl
  rw [hdata, hr, h4, h5]
  omega

theorem metadataPath_ne_filepath (outputDir stem : String) :
    replaceFirstStr (pathJoin outputDir (captureFilename stem)) ".png" ".json" ≠
      pathJoin outputDir (captureFilename stem) := by
  intro heq
  have hdec : (pathJoin outputDir (captureFilename stem)).data =
      (outputDir.data ++ ['/'] ++ "capture_".data ++ stem.data) ++
        ".png".data ++ [] := by
    simp [pathJoin, captureFilename, String.data_append, List.append_assoc]
  have hlen := replaceFirst_png_json_length _ _ hdec
  rw [heq] at hlen
  omega

/-! ### Step lemmas for the workflow loop -/

theorem saveArtifact_filepath (o : String) (i : IterInput) (r : CaptureResult)
    (sd : Option String) (c : Nat) (fs : List (String × FileContent)) :
    (saveArtifact o i r sd c fs).filepath = pathJoin o (captureFilename i.stem) := rfl

theorem saveArtifact_metadataPath (o : String) (i : IterInput) (r : CaptureResult)
    (sd : Option String) (c : Nat) (fs : List (String × FileContent)) :
    (saveArtifact o i r sd c fs).metadataPath =
      replaceFirstStr (pathJoin o (captureFilename i.stem)) ".png" ".json" := rfl

theorem saveArtifact_metadata (o : String) (i : IterInput) (r : CaptureResult)
    (sd : Option String) (c : Nat) (fs : List (String × FileContent)) :
    (saveArtifact o i r sd c fs).metadata =
      { description := sd.getD "", timestamp := i.iso, captures := r.count,
        merged := decide (r.count > 1),
        filepath := pathJoin o (captureFilename i.stem), regions := r.captures,
        recaptureIteration := c } := rfl

theorem saveArtifact_fs (o : String) (i : IterInput) (r : CaptureResult)
    (sd : Option String) (c : Nat) (fs : List (String × FileContent)) :
    (saveArtifact o i r sd c fs).fs =
      writeFs (writeFs fs (pathJoin o (captureFilename i.stem))
          (FileContent.image (imageSrcOf r)))
        (replaceFirstStr (pathJoin o (captureFilename i.stem)) ".png" ".json")
        (FileContent.meta (saveArtifact o i r sd c fs).metadata) := rfl

theorem runAux_cons_keep (outputDir : String) (w s : Bool) (inp : IterInput)
    (rest : List IterInput) (c : Nat) (sd : Option String)
    (fs : List (String × FileContent)) (log : List Bool) (r : CaptureResult)
    (hipc : inp.ipc = some r) (hc : r.cancelled = false) (hn : ¬ r.count = 0)
    (hkeep : (s && showPreviewAndConfirm inp.preview) = false) :
    runAux outputDir w s (inp :: rest) c sd fs log =
      ({ ret := some (successReturn
            (saveArtifact outputDir inp r (updDesc sd r) c fs).filepath
            (updDesc sd r) r.count c),
         fs := (saveArtifact outputDir inp r (updDesc sd r) c fs).fs,
         exchanges := log ++ [w && sd.isNone] } : RunResult) := by
  simp [runAux, hipc, hc, hn, hkeep]

theorem runAux_cons_recapture (outputDir : String) (w s : Bool) (inp : IterInput)
    (rest : List IterInput) (c : Nat) (sd : Option String)
    (fs : List (String × FileContent)) (log : List Bool) (r : CaptureResult)
    (hipc : inp.ipc = some r) (hc : r.cancelled = false) (hn : ¬ r.count = 0)
    (hrec : (s && showPreviewAndConfirm inp.preview) = true) :
    runAux outputDir w s (inp :: rest) c sd fs log =
      runAux outputDir w s rest (c + 1) (updDesc sd r)
        (unlinkFs
          (unlinkFs (saveArtifact outputDir inp r (updDesc sd r) c fs).fs
            (saveArtifact outputDir inp r (updDesc sd r) c fs).filepath)
          (saveArtifact outputDir inp r (updDesc sd r) c fs).metadataPath)
        (log ++ [w && sd.isNone]) := by
  simp [runAux, hipc, hc, hn, hrec]

/-- The metadata document of the artifact finally accepted by the user. -/
def finalMetadata (outputDir : String) (final : IterInput) (r : CaptureResult)
    (sd : Option String) (n : Nat) : Metadata :=
  { description := sd.getD "", timestamp := final.iso, captures := r.count,
    merged := decide (r.count > 1),
    filepath := pathJoin outputDir (captureFilename final.stem),
    regions := r.captures, recaptureIteration := n }

theorem runAux_loop_aux (outputDir : String) (w : Bool)
    (final : IterInput) (r : CaptureResult)
    (hfin : final.ipc = some r) (hfc : r.cancelled = false) (hfn : r.count ≠ 0)
    (hkeep : showPreviewAndConfirm final.preview = false) :
    ∀ (recaps : List IterInput),
      (∀ inp ∈ recaps,
        (∃ rr, inp.ipc = some rr ∧ rr.cancelled = false ∧ rr.count ≠ 0) ∧
          showPreviewAndConfirm inp.preview = true) →
      ∀ (c : Nat) (sd : Option String) (log : List Bool),
        ∃ sd' flags,
          runAux outputDir w true (recaps ++ [final]) c sd [] log =
            ({ ret := some (successReturn
                  (pathJoin outputDir (captureFilename final.stem)) sd' r.count
                  (c + recaps.length)),
               fs := [(pathJoin outputDir (captureFilename final.stem),
                       FileContent.image (imageSrcOf r)),
                      (replaceFirstStr (pathJoin outputDir (captureFilename final.stem))
                        ".png" ".json",
                       FileContent.meta
                         (finalMetadata outputDir final r sd' (c + recaps.length)))],
               exchanges := log ++ flags } : RunResult) ∧
          flags.length = recaps.length + 1 := by
  intro recaps
  induction recaps with
  | nil =>
    intro _ c sd log
    refine ⟨updDesc sd r, [w && sd.isNone], ?_, rfl⟩
    rw [List.nil_append]
    rw [runAux_cons_keep outputDir w true final [] c sd [] log r hfin hfc hfn
      (by rw [hkeep, Bool.and_false])]
    have hne : pathJoin outputDir (captureFilename final.stem) ≠
        replaceFirstStr (pathJoin outputDir (captureFilename final.stem))
          ".png" ".json" :=
      Ne.symm (metadataPath_ne_filepath outputDir final.stem)
    rw [saveArtifact_fs, saveArtifact_filepath, writeFs_pair_of_empty _ _ hne]
    simp [finalMetadata, saveArtifact_metadata]
  | cons inp recaps' ih =>
    intro hrec c sd log
    obtain ⟨⟨rr, hipc, hcanc, hcnt⟩, hprev⟩ := hrec inp (List.mem_cons_self inp recaps')
    have hrest := fun i hi => hrec i (List.mem_cons_of_mem inp hi)
    rw [List.cons_append]
    rw [runAux_cons_recapture outputDir w true inp (recaps' ++ [final]) c sd [] log rr
      hipc hcanc hcnt (by rw [hprev, Bool.and_true])]
    have hfs0 : unlinkFs
        (unlinkFs (saveArtifact outputDir inp rr (updDesc sd rr) c []).fs
          (saveArtifact outputDir inp rr (updDesc sd rr) c []).filepath)
        (saveArtifact outputDir inp rr (updDesc sd rr) c []).metadataPath = [] := by
      rw [saveArtifact_fs, saveArtifact_filepath, saveArtifact_metadataPath,
        cleanup_after_save]
      rfl
    rw [hfs0]
    obtain ⟨sd', flags, hrun, hflen⟩ :=
      ih hrest (c + 1) (updDesc sd rr) (log ++ [w && sd.isNone])
    refine ⟨sd', (w && sd.isNone) :: flags, ?_, by simp [hflen]⟩
    rw [hrun]
    have hc1 : c + 1 + recaps'.length = c + (recaps'.length + 1) := by omega
    rw [hc1]
    simp [List.append_assoc]

/-- **C1.** With preview enabled, every "recapture" preview response deletes
the just-written image and sidecar (the directory is back to its pre-iteration
state), increments the recapture count by one and loops back to another
selection exchange; after `N` recaptures followed by an acceptance the
workflow returns success with `recaptured = N`, the final metadata carries
`recapture_iteration = N`, exactly one image/sidecar pair is left on disk for
the session, and `N + 1` selection exchanges were performed. -/
theorem workflow_recapture_loop (outputDir : String) (withDescription : Bool)
    (recaps : List IterInput) (final : IterInput) (r : CaptureResult)
    (hrec : ∀ inp ∈ recaps,
      (∃ rr, inp.ipc = some rr ∧ rr.cancelled = false ∧ rr.count ≠ 0) ∧
        showPreviewAndConfirm inp.preview = true)
    (hfin : final.ipc = some r) (hfc : r.cancelled = false) (hfn : r.count ≠ 0)
    (hkeep : showPreviewAndConfirm final.preview = false) :
    ∃ sd' flags,
      enhancedCaptureWorkflow outputDir withDescription true (recaps ++ [final]) =
        ({ ret := some (successReturn
              (pathJoin outputDir (captureFilename final.stem)) sd' r.count
              recaps.length),
           fs := [(pathJoin outputDir (captureFilename final.stem),
                   FileContent.image (imageSrcOf r)),
                  (replaceFirstStr (pathJoin outputDir (captureFilename final.stem))
                    ".png" ".json",
                   FileContent.meta (finalMetadata outputDir final r sd' recaps.length))],
           exchanges := flags } : RunResult) ∧
      flags.length = recaps.length + 1 := by
  obtain ⟨sd', flags, hrun, hflen⟩ :=
    runAux_loop_aux outputDir withDescription final r hfin hfc hfn hkeep recaps hrec
      0 none []
  refine ⟨sd', flags, ?_, hflen⟩
  show runAux outputDir withDescription true (recaps ++ [final]) 0 none [] [] = _
  rw [hrun]
  simp

/-- A sample region used by the concrete workflow runs below. -/
def wRegion : Region := { x := 0, y := 0, width := 100, height := 100 }

/-- A valid single-region IPC payload with a description. -/
def wPayload : CaptureResult :=
  { captures := [wRegion], count := 1, cancelled := false,
    description := some "shot" }

/-- A loop iteration whose preview exchange requests a recapture. -/
def wRecapIn : IterInput :=
  { ipc := some wPayload, stem := "s1", iso := "t1",
    preview := SpawnOutcome.exited 1 }

/-- A loop iteration whose preview exchange keeps the capture. -/
def wFinalIn : IterInput :=
  { ipc := some wPayload, stem := "s2", iso := "t2",
    preview := SpawnOutcome.exited 0 }

theorem workflow_recapture_loop_witness :
    (∀ inp ∈ [wRecapIn, wRecapIn],
      (∃ rr, inp.ipc = some rr ∧ rr.cancelled = false ∧ rr.count ≠ 0) ∧
        showPreviewAndConfirm inp.preview = true) ∧
    wFinalIn.ipc = some wPayload ∧ wPayload.cancelled = false ∧
    wPayload.count ≠ 0 ∧ showPreviewAndConfirm wFinalIn.preview = false ∧
    (∃ sd' flags,
      enhancedCaptureWorkflow "/out" true true ([wRecapIn, wRecapIn] ++ [wFinalIn]) =
        ({ ret := some (successReturn
              (pathJoin "/out" (captureFilename wFinalIn.stem)) sd' wPayload.count
              ([wRecapIn, wRecapIn] : List IterInput).length),
           fs := [(pathJoin "/out" (captureFilename wFinalIn.stem),
                   FileContent.image (imageSrcOf wPayload)),
                  (replaceFirstStr (pathJoin "/out" (captureFilename wFinalIn.stem))
                    ".png" ".json",
                   FileContent.meta (finalMetadata "/out" wFinalIn wPayload sd'
                     ([wRecapIn, wRecapIn] : List IterInput).length))],
           exchanges := flags } : RunResult) ∧
      flags.length = ([wRecapIn, wRecapIn] : List IterInput).length + 1) := by
  have hmem : ∀ inp ∈ [wRecapIn, wRecapIn],
      (∃ rr, inp.ipc = some rr ∧ rr.cancelled = false ∧ rr.count ≠ 0) ∧
        showPreviewAndConfirm inp.preview = true := by
    intro inp hin
    rcases List.mem_cons.mp hin with rfl | hin
    · exact ⟨⟨wPayload, rfl, rfl, by decide⟩, rfl⟩
    rcases List.mem_cons.mp hin with rfl | hin
    · exact ⟨⟨wPayload, rfl, rfl, by decide⟩, rfl⟩
    · exact absurd hin (List.not_mem_nil inp)
  exact ⟨hmem, rfl, rfl, by decide, rfl,
    workflow_recapture_loop "/out" true [wRecapIn, wRecapIn] wFinalIn wPayload hmem
      rfl rfl (by decide) rfl⟩

/-! ### Description fixing across the recapture loop (C2) -/

/-- A valid single-region IPC payload with no description (the user skipped
the description dialog). -/
def cxNoDescPayload : CaptureResult :=
  { captures := [wRegion], count := 1, cancelled := false, description := none }

/-- A valid payload carrying a description obtained only on the recapture
iteration. -/
def cxLatePayload : CaptureResult :=
  { captures := [wRegion], count := 1, cancelled := false,
    description := some "late" }

/-- First iteration: no description given, preview requests recapture. -/
def cxIn1 : IterInput :=
  { ipc := some cxNoDescPayload, stem := "s1", iso := "t1",
    preview := SpawnOutcome.exited 1 }

/-- Second iteration: description entered now, preview keeps. -/
def cxIn2 : IterInput :=
  { ipc := some cxLatePayload, stem := "s2", iso := "t2",
    preview := SpawnOutcome.exited 0 }

/-- **C2, counterexample.** When the first acquisition yields no description,
the recapture iteration is invoked with the description prompt enabled again
(second exchange flag is `true`, not suppressed), and the final artifact's
description is the one obtained on the second acquisition, not the first. -/
theorem workflow_description_reprompted_counterexample :
    (enhancedCaptureWorkflow "/out" true true [cxIn1, cxIn2]).exchanges =
      [true, true] ∧
    ((enhancedCaptureWorkflow "/out" true true [cxIn1, cxIn2]).ret.map
      (fun wret => wret.description)) = some (some "late") := by
  constructor
  · rfl
  · rfl

theorem runAux_saved_description (outputDir : String) (w s : Bool) :
    ∀ (script : List IterInput) (c : Nat) (fs : List (String × FileContent))
      (log : List Bool) (d : String),
      ∃ flags,
        (runAux outputDir w s script c (some d) fs log).exchanges = log ++ flags ∧
        (∀ b ∈ flags, b = false) ∧
        (∀ wret, (runAux outputDir w s script c (some d) fs log).ret = some wret →
          wret.success = true → wret.description = some d) := by
  intro script
  induction script with
  | nil =>
    intro c fs log d
    refine ⟨[], by simp [runAux], by simp, ?_⟩
    intro wret h
    simp [runAux] at h
  | cons inp rest ih =>
    intro c fs log d
    have hflag : (w && (some d : Option String).isNone) = false := by simp
    have hupd : ∀ rr : CaptureResult, updDesc (some d) rr = some d := by
      intro rr
      simp [updDesc]
    cases hipc : inp.ipc with
    | none =>
      refine ⟨[false], ?_, by simp, ?_⟩
      · simp [runAux, hipc, hflag]
      · intro wret h hsucc
        simp [runAux, hipc] at h
        rw [← h] at hsucc
        exact absurd hsucc (by simp [cancelledReturn])
    | some rr =>
      by_cases hcanc : rr.cancelled = true
      · refine ⟨[false], ?_, by simp, ?_⟩
        · simp [runAux, hipc, hcanc, hflag]
        · intro wret h hsucc
          simp [runAux, hipc, hcanc] at h
          rw [← h] at hsucc
          exact absurd hsucc (by simp [cancelledReturn])
      · by_cases hcnt : rr.count = 0
        · refine ⟨[false], ?_, by simp, ?_⟩
          · simp [runAux, hipc, hcanc, hcnt, hflag]
          · intro wret h hsucc
            simp [runAux, hipc, hcanc, hcnt] at h
            rw [← h] at hsucc
            exact absurd hsucc (by simp [noRegionsReturn])
        · by_cases hdec : (s && showPreviewAndConfirm inp.preview) = true
          · rw [runAux_cons_recapture outputDir w s inp rest c (some d) fs log rr
              hipc (by simpa using hcanc) hcnt hdec, hupd rr]
            obtain ⟨flags, hex, hfalse, hret⟩ :=
              ih (c + 1)
                (unlinkFs
                  (unlinkFs (saveArtifact outputDir inp rr (some d) c fs).fs
                    (saveArtifact outputDir inp rr (some d) c fs).filepath)
                  (saveArtifact outputDir inp rr (some d) c fs).metadataPath)
                (log ++ [w && (some d : Option String).isNone]) d
            refine ⟨false :: flags, ?_, ?_, hret⟩
            · rw [hex, hflag]
              simp
            · intro b hb
              rcases List.mem_cons.mp hb with rfl | hb
              · rfl
              · exact hfalse b hb
          · rw [runAux_cons_keep outputDir w s inp rest c (some d) fs log rr
              hipc (by simpa using hcanc) hcnt (by simpa using hdec), hupd rr]
            refine ⟨[false], by rw [hflag], by simp, ?_⟩
            · intro wret h hsucc
              simp at h
              rw [← h]
              simp [successReturn]

/-- **C2, amended.** The description is fixed after the first acquisition
that yields a non-empty description: if the session's first acquisition
yields description `d ≠ ""`, every later `enhancedCaptureScreen` exchange is
invoked with the description prompt suppressed (`false` flag), and any
successful return of the workflow carries `d`.  (When the first acquisition
yields no description, recapture iterations re-prompt: see the
counterexample.) -/
theorem workflow_description_fixed_after_first_nonempty
    (outputDir : String) (w s : Bool) (first : IterInput)
    (rest : List IterInput) (r : CaptureResult) (d : String)
    (hipc : first.ipc = some r) (hc : r.cancelled = false) (hn : r.count ≠ 0)
    (hd : r.description = some d) (hne : d ≠ "") :
    ∃ flags,
      (enhancedCaptureWorkflow outputDir w s (first :: rest)).exchanges =
        w :: flags ∧
      (∀ b ∈ flags, b = false) ∧
      (∀ wret,
        (enhancedCaptureWorkflow outputDir w s (first :: rest)).ret = some wret →
        wret.success = true → wret.description = some d) := by
  have hupd : updDesc none r = some d := by
    have hbeq : (d == "") = false := beq_eq_false_iff_ne.mpr hne
    simp [updDesc, descTruthy, hd, hbeq]
  show ∃ flags,
      (runAux outputDir w s (first :: rest) 0 none [] []).exchanges = w :: flags ∧
      (∀ b ∈ flags, b = false) ∧
      (∀ wret, (runAux outputDir w s (first :: rest) 0 none [] []).ret = some wret →
        wret.success = true → wret.description = some d)
  by_cases hdec : (s && showPreviewAndConfirm first.preview) = true
  · rw [runAux_cons_recapture outputDir w s first rest 0 none [] [] r hipc hc hn hdec,
      hupd]
    obtain ⟨flags, hex, hfalse, hret⟩ :=
      runAux_saved_description outputDir w s rest 1
        (unlinkFs
          (unlinkFs (saveArtifact outputDir first r (some d) 0 []).fs
            (saveArtifact outputDir first r (some d) 0 []).filepath)
          (saveArtifact outputDir first r (some d) 0 []).metadataPath)
        ([] ++ [w && (none : Option String).isNone]) d
    refine ⟨flags, ?_, hfalse, hret⟩
    rw [hex]
    simp
  · rw [runAux_cons_keep outputDir w s first rest 0 none [] [] r hipc hc hn
      (by simpa using hdec), hupd]
    refine ⟨[], by simp, by simp, ?_⟩
    intro wret h hsucc
    simp at h
    rw [← h]
    simp [successReturn]

theorem workflow_description_fixed_witness :
    wRecapIn.ipc = some wPayload ∧ wPayload.cancelled = false ∧
    wPayload.count ≠ 0 ∧ wPayload.description = some "shot" ∧ "shot" ≠ "" ∧
    (∃ flags,
      (enhancedCaptureWorkflow "/o" true true (wRecapIn :: [wFinalIn])).exchanges =
        true :: flags ∧
      (∀ b ∈ flags, b = false) ∧
      (∀ wret,
        (enhancedCaptureWorkflow "/o" true true (wRecapIn :: [wFinalIn])).ret =
          some wret →
        wret.success = true → wret.description = some "shot")) :=
  ⟨rfl, rfl, by decide, rfl, by decide,
    workflow_description_fixed_after_first_nonempty "/o" true true wRecapIn
      [wFinalIn] wPayload "shot" rfl rfl (by decide) rfl (by decide)⟩

/-! ### Merge policy at the save step (C3) -/

/-- **C3.** At the save step executed by every successful session (steps 4-5
of the workflow), assuming the IPC payload is well formed (`count` equals the
number of captured regions): the metadata's `merged` flag is `true` exactly
when more than one region was captured; with exactly one region the single
buffer is written as-is (no Merge Engine invocation); with more than one the
Merge Engine is invoked with method `auto`. -/
theorem saveArtifact_merged_iff (outputDir : String) (inp : IterInput)
    (r : CaptureResult) (saved : Option String) (c : Nat)
    (fs : List (String × FileContent)) (hwf : r.count = r.captures.length) :
    ((saveArtifact outputDir inp r saved c fs).metadata.merged = true ↔
      r.captures.length > 1) ∧
    (r.captures.length = 1 →
      (saveArtifact outputDir inp r saved c fs).image =
        ImageSrc.single r.captures.headI) ∧
    (r.captures.length ≠ 1 →
      (saveArtifact outputDir inp r saved c fs).image =
        ImageSrc.merged "auto" r.captures) := by
  refine ⟨?_, ?_, ?_⟩
  · rw [saveArtifact_metadata]
    simp [hwf]
  · intro h1
    show imageSrcOf r = ImageSrc.single r.captures.headI
    simp [imageSrcOf, h1]
  · intro h1
    show imageSrcOf r = ImageSrc.merged "auto" r.captures
    simp [imageSrcOf, h1]

theorem saveArtifact_merged_iff_witness :
    (wPayload.count = wPayload.captures.length) ∧
    ((saveArtifact "/o" wFinalIn wPayload none 0 []).metadata.merged = true ↔
      wPayload.captures.length > 1) ∧
    (wPayload.captures.length = 1 →
      (saveArtifact "/o" wFinalIn wPayload none 0 []).image =
        ImageSrc.single wPayload.captures.headI) ∧
    (wPayload.captures.length ≠ 1 →
      (saveArtifact "/o" wFinalIn wPayload none 0 []).image =
        ImageSrc.merged "auto" wPayload.captures) :=
  ⟨rfl, saveArtifact_merged_iff "/o" wFinalIn wPayload none 0 [] rfl⟩
